import Mathlib

/-!
# Verification of the Decentralized-Cryptocurrency-Wallet-System ledger core

Shallow embedding of the Go sources (`wallet` package, `blockchain` package,
`services` package) and proofs of the specification claims.

Machine integers: Go `uint64` values are modelled as `Nat` with explicit
`% 2^64` at every point where the Go code performs wrap-around arithmetic;
Go `int`/`int64` values are modelled as `Int`.

Go maps (`map[string]UTXO`) are modelled as association lists with
replace-or-append update; Go's unspecified map iteration order is modelled
by quantifying over permutations of the entry list where iteration order
matters (coin selection).
-/

namespace CryptoWallet

/-! ## Bytes, UTF-8 and hex encoding -/

/-- 2^32, the modulus of 32-bit words. -/
def M32 : Nat := 4294967296

/-- 2^64, the modulus of Go `uint64` arithmetic. -/
def U64 : Nat := 18446744073709551616

/-- UTF-8 encoding of a Unicode code point (as Go's `utf8.EncodeRune`). -/
def utf8Char (n : Nat) : List Nat :=
  if n < 128 then [n]
  else if n < 2048 then [192 + n / 64, 128 + n % 64]
  else if n < 65536 then [224 + n / 4096, 128 + (n / 64) % 64, 128 + n % 64]
  else [240 + n / 262144, 128 + (n / 4096) % 64, 128 + (n / 64) % 64, 128 + n % 64]

/-- The UTF-8 bytes of a string (Go `[]byte(s)`). -/
def strBytes (s : String) : List Nat :=
  (s.data.map (fun c => utf8Char c.toNat)).flatten

/-- Lower-case hex digit for a nibble (as Go `encoding/hex`). -/
def hexDigit (n : Nat) : Char :=
  if n < 10 then Char.ofNat (48 + n) else Char.ofNat (87 + n)

/-- Lower-case hex encoding of a byte list (Go `hex.EncodeToString`). -/
def toHex (bytes : List Nat) : String :=
  String.mk ((bytes.map (fun b => [hexDigit (b / 16), hexDigit (b % 16)])).flatten)

/-- Value of one hex digit, accepting both cases (Go `encoding/hex`). -/
def hexVal (c : Char) : Option Nat :=
  if 48 ≤ c.toNat ∧ c.toNat ≤ 57 then some (c.toNat - 48)
  else if 97 ≤ c.toNat ∧ c.toNat ≤ 102 then some (c.toNat - 87)
  else if 65 ≤ c.toNat ∧ c.toNat ≤ 70 then some (c.toNat - 55)
  else none

/-- Hex decoding of a character list: fails on an odd length or an invalid
digit, exactly as Go's `hex.DecodeString`. -/
def hexDecodeList : List Char → Option (List Nat)
  | [] => some []
  | [_] => none
  | a :: b :: rest =>
    match hexVal a, hexVal b, hexDecodeList rest with
    | some x, some y, some tl => some ((16 * x + y) :: tl)
    | _, _, _ => none

/-- Go `hex.DecodeString`. -/
def hexDecode (s : String) : Option (List Nat) :=
  hexDecodeList s.data

/-! ## SHA-256 (Go `crypto/sha256`), over byte lists -/

/-- Addition modulo 2^32. -/
def add32 (a b : Nat) : Nat := (a + b) % M32

/-- Right rotation of a 32-bit word. -/
def rotr (n x : Nat) : Nat := ((x >>> n) ||| (x <<< (32 - n))) % M32

/-- Triple xor. -/
def xor3 (a b c : Nat) : Nat := Nat.xor (Nat.xor a b) c

def bsig0 (x : Nat) : Nat := xor3 (rotr 2 x) (rotr 13 x) (rotr 22 x)

def bsig1 (x : Nat) : Nat := xor3 (rotr 6 x) (rotr 11 x) (rotr 25 x)

def ssig0 (x : Nat) : Nat := xor3 (rotr 7 x) (rotr 18 x) (x >>> 3)

def ssig1 (x : Nat) : Nat := xor3 (rotr 17 x) (rotr 19 x) (x >>> 10)

/-- SHA-256 choice function. -/
def chf (x y z : Nat) : Nat := Nat.xor (Nat.land x y) (Nat.land (Nat.xor x (M32 - 1)) z)

/-- SHA-256 majority function. -/
def majf (x y z : Nat) : Nat :=
  Nat.xor (Nat.xor (Nat.land x y) (Nat.land x z)) (Nat.land y z)

/-- The 64 SHA-256 round constants (FIPS 180-4), written in decimal. -/
def sha256K : List Nat :=
  [1116352408, 1899447441, 3049323471, 3921009573, 961987163,
   1508970993, 2453635748, 2870763221, 3624381080, 310598401,
   607225278, 1426881987, 1925078388, 2162078206, 2614888103,
   3248222580, 3835390401, 4022224774, 264347078, 604807628,
   770255983, 1249150122, 1555081692, 1996064986, 2554220882,
   2821834349, 2952996808, 3210313671, 3336571891, 3584528711,
   113926993, 338241895, 666307205, 773529912, 1294757372,
   1396182291, 1695183700, 1986661051, 2177026350, 2456956037,
   2730485921, 2820302411, 3259730800, 3345764771, 3516065817,
   3600352804, 4094571909, 275423344, 430227734, 506948616,
   659060556, 883997877, 958139571, 1322822218, 1537002063,
   1747873779, 1955562222, 2024104815, 2227730452, 2361852424,
   2428436474, 2756734187, 3204031479, 3329325298]

/-- The initial SHA-256 hash state (FIPS 180-4), written in decimal. -/
def sha256H0 : List Nat :=
  [1779033703, 3144134277, 1013904242, 2773480762,
   1359893119, 2600822924, 528734635, 1541459225]

/-- SHA-256 message padding: append `0x80`, zeros to 56 mod 64, then the
bit length as 8 big-endian bytes. -/
def sha256Pad (msg : List Nat) : List Nat :=
  let len := msg.length
  let zeros := (119 - len % 64) % 64
  msg ++ [128] ++ List.replicate zeros 0 ++
    ((List.range 8).map (fun i => ((8 * len) >>> (8 * (7 - i))) % 256))

/-- Big-endian 32-bit words from a byte list. -/
def bytesToWords : List Nat → List Nat
  | a :: b :: c :: d :: rest => (((a * 256 + b) * 256 + c) * 256 + d) :: bytesToWords rest
  | _ => []

/-- Extend the 16-word schedule by `n` further words. -/
def extendSchedule : Nat → List Nat → List Nat
  | 0, w => w
  | n + 1, w =>
    let t := w.length
    extendSchedule n (w ++ [add32 (add32 (ssig1 (w.getD (t - 2) 0)) (w.getD (t - 7) 0))
                            (add32 (ssig0 (w.getD (t - 15) 0)) (w.getD (t - 16) 0))])

/-- One SHA-256 compression round on the 8-word working state. -/
def sha256Round (st : List Nat) (kw : Nat × Nat) : List Nat :=
  match st with
  | [a, b, c, d, e, f, g, h] =>
    let t1 := add32 h (add32 (bsig1 e) (add32 (chf e f g) (add32 kw.1 kw.2)))
    let t2 := add32 (bsig0 a) (majf a b c)
    [add32 t1 t2, a, b, c, add32 d t1, e, f, g]
  | other => other

/-- Compress one 64-byte chunk into the hash state. -/
def sha256Compress (hst : List Nat) (chunk : List Nat) : List Nat :=
  let w := extendSchedule 48 (bytesToWords chunk)
  let out := (sha256K.zip w).foldl sha256Round hst
  List.zipWith add32 hst out

/-- Process the padded message 64 bytes at a time (fuel-bounded; the fuel
is always sufficient since every step consumes 64 bytes). -/
def sha256Chunks : Nat → List Nat → List Nat → List Nat
  | 0, _, hst => hst
  | fuel + 1, l, hst =>
    match l with
    | [] => hst
    | _ => sha256Chunks fuel (l.drop 64) (sha256Compress hst (l.take 64))

/-- A 32-bit word as 4 big-endian bytes. -/
def wordBytes (w : Nat) : List Nat :=
  [(w >>> 24) % 256, (w >>> 16) % 256, (w >>> 8) % 256, w % 256]

/-- SHA-256 digest (32 bytes) of a byte list. -/
def sha256 (msg : List Nat) : List Nat :=
  let padded := sha256Pad msg
  ((sha256Chunks padded.length padded sha256H0).map wordBytes).flatten

/-- Hex-encoded SHA-256 of a string, the composition the Go code uses as
`hex.EncodeToString(h[:])` after `sha256.Sum256([]byte(s))`. -/
def sha256hex (s : String) : String := toHex (sha256 (strBytes s))

/-! ## Key management (`wallet` package) -/

/-- `wallet.WalletIDFromPub`: hex-decode the public key, SHA-256 it, and keep
the first 40 hex characters; `none` models the Go error on bad hex. -/
def walletIDFromPub (pubHex : String) : Option String :=
  (hexDecode pubHex).map (fun b => (toHex (sha256 b)).take 40)

/-- The canonical signing payload fields `(sender, receiver, amount,
timestamp, note)`. `wallet.MarshalPayload` serializes exactly these five
fields with `json.Marshal` (deterministic: Go marshals map keys sorted), so
the byte payload is a fixed injective function of this record; the abstract
signature primitives below consume the record directly. -/
structure Payload where
  sender : String
  receiver : String
  amount : Nat
  timestamp : Int
  note : String
deriving DecidableEq, Repr

/-! ## Data model (`blockchain` package) -/

/-- Go `blockchain.MiningReward`. -/
def miningReward : Nat := 50

/-- Go `blockchain.FaucetAmount`. -/
def faucetAmount : Nat := 1000

/-- Go `blockchain.UTXORef`. -/
structure UTXORef where
  txid : String
  index : Int
deriving DecidableEq, Repr

/-- Go `blockchain.UTXO`. -/
structure UTXO where
  id : String
  owner : String
  amount : Nat
  originTx : String
  index : Int
  spent : Bool
deriving DecidableEq, Repr

/-- Go `blockchain.Transaction` (the Go field `Type` is `txType` here). -/
structure Tx where
  id : String
  senderId : String
  receiverId : String
  amount : Nat
  note : String
  timestamp : Int
  pubKey : String
  signature : String
  inputs : List UTXORef
  outputs : List UTXO
  txType : String
deriving DecidableEq, Repr

/-- Go `blockchain.Block` (the Go field `PreviousHash` is `prevHash` here). -/
structure Block where
  index : Int
  timestamp : Int
  transactions : List Tx
  prevHash : String
  nonce : Int
  hash : String
  merkleRoot : String
deriving DecidableEq, Repr

/-- Go `blockchain.Blockchain`: the chain, the pending pool, the UTXO set
(a Go `map[string]UTXO`, modelled as an association list with unique keys),
and the difficulty string. -/
structure Chainstate where
  chain : List Block
  pending : List Tx
  utxos : List (String × UTXO)
  difficultyPref : String
deriving DecidableEq, Repr

/-- Lookup in the UTXO map (Go `bc.UTXOs[key]` with `ok` flag). -/
def assocGet (m : List (String × UTXO)) (k : String) : Option UTXO :=
  match m with
  | [] => none
  | (k2, v) :: rest => if k2 = k then some v else assocGet rest k

/-- Store into the UTXO map (Go `bc.UTXOs[key] = v`): replace the entry in
place when the key is present, append otherwise. -/
def assocSet (m : List (String × UTXO)) (k : String) (v : UTXO) : List (String × UTXO) :=
  match m with
  | [] => [(k, v)]
  | (k2, v2) :: rest => if k2 = k then (k, v) :: rest else (k2, v2) :: assocSet rest k v

/-- UTXO-map key `fmt.Sprintf("%s:%d", txid, index)`. -/
def utxoKey (txid : String) (index : Int) : String := txid ++ ":" ++ toString index

/-- Key of an input reference. -/
def refKey (r : UTXORef) : String := utxoKey r.txid r.index

/-! ## Blockchain functions (`blockchain` package) -/

/-- One pairwise-hashing pass of the Merkle loop: adjacent pairs are
concatenated and hashed, an odd last element is carried up unchanged. -/
def merkleRound : List String → List String
  | [] => []
  | [x] => [x]
  | a :: b :: rest => sha256hex (a ++ b) :: merkleRound rest

/-- The `for len(hashes) > 1` loop of `computeMerkle`, fuel-bounded (each
pass at least halves a list of length ≥ 2, so `fuel = length` suffices). -/
def merkleLoop : Nat → List String → List String
  | 0, l => l
  | fuel + 1, l => if l.length ≤ 1 then l else merkleLoop fuel (merkleRound l)

/-- Go `(*Blockchain).computeMerkle`: empty list gives `""`; otherwise the
leaf hashes `sha256hex(t.ID)` are combined pairwise **in list order** —
note there is no sorting here. -/
def computeMerkle (txs : List Tx) : String :=
  if txs.isEmpty then ""
  else (merkleLoop txs.length (txs.map (fun t => sha256hex t.id))).headD ""

/-- Go's conversion `string(n)` for an integer `n`: the UTF-8 bytes of the
code point, or of U+FFFD when `n` is not a valid code point (negative,
beyond U+10FFFF, or a surrogate). Used by `hashBlock` on index, timestamp
and nonce. -/
def runeString (n : Int) : List Nat :=
  if n < 0 ∨ 1114111 < n ∨ (55296 ≤ n ∧ n ≤ 57343) then utf8Char 65533
  else utf8Char n.toNat

/-- Go `sort.Strings`: strings sorted ascending. Equal keys are identical
strings, so the sorted output is the unique sorted permutation and any
correct sort models it exactly. -/
def sortStrings (l : List String) : List String :=
  List.insertionSort (fun a b => a ≤ b) l

/-- Go `strings.Join(l, ",")` on the byte level. -/
def joinBytes (l : List String) : List Nat :=
  strBytes (String.intercalate "," l)

/-- Go `(*Blockchain).hashBlock`: SHA-256 of
`string(Index) | string(Timestamp) | join(sortStrings(txIDs), ",") |
PreviousHash | string(Nonce)` joined with `"|"`. The transaction ids are
**sorted** before hashing. The `Hash` field itself is not an input. -/
def hashBlock (b : Block) : String :=
  let txids := sortStrings (b.transactions.map (fun t => t.id))
  toHex (sha256 (runeString b.index ++ strBytes "|" ++ runeString b.timestamp ++
    strBytes "|" ++ joinBytes txids ++ strBytes "|" ++ strBytes b.prevHash ++
    strBytes "|" ++ runeString b.nonce))

/-- Go `(*Blockchain).AddPending`: append with no validation. -/
def addPending (bc : Chainstate) (tx : Tx) : Chainstate :=
  { bc with pending := bc.pending ++ [tx] }

/-- The coinbase (mining-reward) transaction built at the top of `Mine`. -/
def coinbaseTx (index timestamp : Int) (minerWalletID : String) : Tx :=
  let cid := "coinbase-" ++ toString index ++ "-" ++ toString timestamp
  { id := cid
    senderId := "COINBASE"
    receiverId := minerWalletID
    amount := miningReward
    note := "Mining reward for block #" ++ toString index
    timestamp := timestamp
    pubKey := "SYSTEM"
    signature := "COINBASE"
    inputs := []
    outputs := [{ id := "", owner := minerWalletID, amount := miningReward,
                  originTx := cid, index := 0, spent := false }]
    txType := "mining_reward" }

/-- Go `blockchain` mining iteration budget (10 million attempts). -/
def maxIterations : Nat := 10000000

/-- The proof-of-work loop of `Mine`: up to `fuel` attempts; each attempt
stores the nonce in the block, hashes, and stops with the hash stored when
it has the difficulty string as a leading substring. On exhaustion the
block keeps its empty `hash` and the last tried nonce. -/
def powSearch (pref : String) : Nat → Int → Block → Block
  | 0, _, b => b
  | fuel + 1, nonce, b =>
    let b2 := { b with nonce := nonce }
    let h := hashBlock b2
    if h.startsWith pref then { b2 with hash := h }
    else powSearch pref fuel (nonce + 1) b2

/-- The input-marking half of `Mine`'s commit: every input of the
transaction that is present in the UTXO map is overwritten with
`spent := true`. An absent key is silently skipped; an already-spent entry
is re-marked without complaint — there is no seal-time double-spend check. -/
def applyTxInputs (m : List (String × UTXO)) (tx : Tx) : List (String × UTXO) :=
  tx.inputs.foldl (fun m r =>
    match assocGet m (refKey r) with
    | some ut => assocSet m (refKey r) { ut with spent := true }
    | none => m) m

/-- The output-insertion half of `Mine`'s commit: output `idx` of `tx` is
stored at key `tx.ID:idx` with its `id` field set to that key. -/
def applyTxOutputs (m : List (String × UTXO)) (tx : Tx) : List (String × UTXO) :=
  (tx.outputs.enum).foldl (fun m p =>
    assocSet m (utxoKey tx.id p.1) { p.2 with id := utxoKey tx.id p.1 }) m

/-- `Mine`'s UTXO commit over all transactions of the block, in block
order: inputs marked spent, then outputs inserted, per transaction. -/
def applyBlockUTXOs (m : List (String × UTXO)) (txs : List Tx) : List (String × UTXO) :=
  txs.foldl (fun m tx => applyTxOutputs (applyTxInputs m tx) tx) m

/-- The candidate block assembled at the top of `Mine`, before the nonce
search: the coinbase transaction prepended to the whole pending pool, the
previous block's hash, and the Merkle root. `now` stands for
`time.Now().Unix()`. (Go indexes `bc.Chain[len-1]`, which panics on an
empty chain; a chain is never empty after `NewBlockchain`, and the model
returns `""` in that impossible case.) -/
def mineBlock0 (bc : Chainstate) (minerWalletID : String) (now : Int) : Block :=
  let index : Int := bc.chain.length
  let txs := coinbaseTx index now minerWalletID :: bc.pending
  { index := index
    timestamp := now
    transactions := txs
    prevHash := (match bc.chain.getLast? with | some pb => pb.hash | none => "")
    nonce := 0
    hash := ""
    merkleRoot := computeMerkle txs }

/-- The block as committed by `Mine`: the proof-of-work result, with the
`if b.Hash == ""` fallback to the hash at the last tried nonce. -/
def minedBlock (bc : Chainstate) (nonceStart : Int) (minerWalletID : String) (now : Int) :
    Block :=
  let b1 := powSearch bc.difficultyPref maxIterations nonceStart
    (mineBlock0 bc minerWalletID now)
  if b1.hash = "" then { b1 with hash := hashBlock b1 } else b1

/-- Go `(*Blockchain).Mine(nonceStart, minerWalletID)`: run the bounded
proof-of-work search on the candidate block, then commit unconditionally —
append the block to the chain, mark every input UTXO of every included
transaction spent, insert every output as a new UTXO, and clear the
pending pool. -/
def mine (bc : Chainstate) (nonceStart : Int) (minerWalletID : String) (now : Int) :
    Block × Chainstate :=
  (minedBlock bc nonceStart minerWalletID now,
   { bc with
      chain := bc.chain ++ [minedBlock bc nonceStart minerWalletID now]
      utxos := applyBlockUTXOs bc.utxos (coinbaseTx bc.chain.length now minerWalletID :: bc.pending)
      pending := [] })

/-- Go `(*Blockchain).GetBalance`: sum of `Amount` over unspent UTXOs owned
by the wallet, accumulated in `uint64` (wrap-around at 2^64). Go iterates
the map in unspecified order; modular addition is commutative and
associative, so the sum is order-independent and the entry-list order is
used. -/
def getBalance (bc : Chainstate) (walletID : String) : Nat :=
  bc.utxos.foldl (fun s p =>
    if p.2.owner = walletID ∧ p.2.spent = false then (s + p.2.amount) % U64 else s) 0

/-- Go `(*Blockchain).CreateFaucetUTXO`: mints a fresh unspent UTXO of
`faucetAmount` for the wallet, keyed by a timestamped faucet id, straight
into the UTXO map; no transaction and no block is involved. `ts` stands
for `time.Now().Unix()`. -/
def createFaucetUTXO (bc : Chainstate) (walletID : String) (ts : Int) :
    UTXO × Chainstate :=
  let originTx := "faucet-" ++ walletID ++ "-" ++ toString ts
  let utxoID := originTx ++ ":0"
  let u : UTXO := { id := utxoID, owner := walletID, amount := faucetAmount,
                    originTx := originTx, index := 0, spent := false }
  (u, { bc with utxos := assocSet bc.utxos utxoID u })

/-! ## Transaction service (`services` package)

`SelectUTXOs` iterates the UTXO map (`for _, utxo := range ts.bc.UTXOs`),
whose order Go leaves unspecified, and then sorts with `sort.Slice`, which
is **not stable**. Both sources of nondeterminism are captured by one
parameter: `entries`, the map values in some iteration order. Every
possible Go outcome equals the model at some permutation `entries` of the
map values, because a stable sort applied after an arbitrary permutation
realizes every sorted rearrangement. -/

/-- The descending-amount comparison of `SelectUTXOs`
(`available[i].Amount > available[j].Amount`). -/
def amountGE (a b : UTXO) : Prop := b.amount ≤ a.amount

instance : DecidableRel amountGE := fun a b => Nat.decLe b.amount a.amount

/-- The greedy accumulation loop of `SelectUTXOs`: stop as soon as the
running total reaches the requested amount, otherwise take the next UTXO,
accumulating the total in `uint64`. -/
def greedyGo (l : List UTXO) (amount : Nat) (total : Nat) : List UTXO × Nat :=
  match l with
  | [] => ([], total)
  | u :: rest =>
    if amount ≤ total then ([], total)
    else
      let r := greedyGo rest amount ((total + u.amount) % U64)
      (u :: r.1, r.2)

/-- The unspent outputs of a wallet among the map entries, in iteration
order (the filter loop of `SelectUTXOs`). -/
def availableOf (entries : List UTXO) (walletID : String) : List UTXO :=
  entries.filter (fun u => u.owner == walletID && !u.spent)

/-- Go `(*TransactionService).SelectUTXOs`: filter to the wallet's unspent
outputs, sort descending by amount, greedily accumulate until the total
covers the request; error when even the full total falls short. -/
def selectUTXOs (entries : List UTXO) (walletID : String) (amount : Nat) :
    Except String (List UTXO × Nat) :=
  let sorted := List.insertionSort amountGE (availableOf entries walletID)
  let r := greedyGo sorted amount 0
  if r.2 < amount then .error "insufficient balance" else .ok r

/-- The canonical payload of a transaction, as recomputed by
`ValidateTransaction` via `wallet.MarshalPayload`. -/
def txPayload (tx : Tx) : Payload :=
  { sender := tx.senderId, receiver := tx.receiverId, amount := tx.amount,
    timestamp := tx.timestamp, note := tx.note }

/-- Go `wallet.VerifySignature`, with the Ed25519 primitive abstract:
hex-decode the public key and the signature (propagating decode errors),
then ask the verifier. -/
def verifySignature (verifyFn : List Nat → Payload → List Nat → Bool)
    (pubHex : String) (msg : Payload) (sigHex : String) : Except String Bool :=
  match hexDecode pubHex with
  | none => .error "bad public key hex"
  | some pub =>
    match hexDecode sigHex with
    | none => .error "bad signature hex"
    | some sig => .ok (verifyFn pub msg sig)

/-- Go `wallet.SignWithPriv`, with the Ed25519 primitive abstract:
hex-decode the private key, insist on the 64-byte Ed25519 private key
size, and return the hex of the produced signature bytes. -/
def signWithPriv (signFn : List Nat → Payload → List Nat)
    (privHex : String) (payload : Payload) : Except String String :=
  match hexDecode privHex with
  | none => .error "bad private key hex"
  | some priv =>
    if priv.length ≠ 64 then .error "invalid private key size"
    else .ok (toHex (signFn priv payload))

/-- The per-input loop of `ValidateTransaction`: each referenced UTXO must
exist, be unspent, and be owned by the declared sender, in that order of
checks. -/
def checkInputs (m : List (String × UTXO)) (sender : String) :
    List UTXORef → Except String Unit
  | [] => .ok ()
  | r :: rest =>
    match assocGet m (refKey r) with
    | none => .error ("UTXO " ++ refKey r ++ " not found")
    | some u =>
      if u.spent then .error ("UTXO " ++ refKey r ++ " already spent (double-spend attempt)")
      else if u.owner ≠ sender then .error ("UTXO " ++ refKey r ++ " not owned by sender")
      else checkInputs m sender rest

/-- The input total of `ValidateTransaction`: re-lookup of every input
(the missing-key case contributes the Go zero value, amount 0), summed in
`uint64`. -/
def inputsTotal (m : List (String × UTXO)) (tx : Tx) : Nat :=
  tx.inputs.foldl (fun s r =>
    (s + (match assocGet m (refKey r) with | some u => u.amount | none => 0)) % U64) 0

/-- The output total of `ValidateTransaction`, summed in `uint64`. -/
def outputsTotal (tx : Tx) : Nat :=
  tx.outputs.foldl (fun s o => (s + o.amount) % U64) 0

/-- Go `(*TransactionService).ValidateTransaction`: recompute the canonical
payload and verify the signature against the declared public key; derive
the wallet id from that key and compare with the declared sender; check
every input UTXO (exists, unspent, owned by the sender); finally compare
the `uint64` input and output totals. The Go function only reads the
ledger (an `RLock`), so the embedding is a pure function of the state —
state is unchanged on every path, success or failure. -/
def validateTransaction (verifyFn : List Nat → Payload → List Nat → Bool)
    (bc : Chainstate) (tx : Tx) : Except String Unit :=
  match verifySignature verifyFn tx.pubKey (txPayload tx) tx.signature with
  | .error e => .error ("signature verification error: " ++ e)
  | .ok false => .error "invalid signature"
  | .ok true =>
    match walletIDFromPub tx.pubKey with
    | none => .error "bad public key hex"
    | some expected =>
      if expected ≠ tx.senderId then .error "public key does not match sender wallet ID"
      else
        match checkInputs bc.utxos tx.senderId tx.inputs with
        | .error e => .error e
        | .ok () =>
          if inputsTotal bc.utxos tx ≠ outputsTotal tx then
            .error "input total does not match output total"
          else .ok ()

/-- Go `(*TransactionService).CreateTransaction`. `knownWallets` models the
wallet store (`ts.ws.Get`), `entries` the UTXO-map iteration order,
`nowNano`/`now` the two `time.Now()` reads. Builds inputs from the selected
UTXOs, one output of `amount` to the receiver at index 0 and, when there is
change, a change output back to the sender at index 1, then signs the
canonical payload. -/
def createTransaction (signFn : List Nat → Payload → List Nat)
    (knownWallets : List String) (entries : List UTXO)
    (senderID receiverID : String) (amount : Nat) (note pubKey privKey : String)
    (nowNano now : Int) : Except String Tx :=
  if ¬ senderID ∈ knownWallets then .error "sender wallet does not exist"
  else if ¬ receiverID ∈ knownWallets then .error "receiver wallet does not exist"
  else
    match selectUTXOs entries senderID amount with
    | .error e => .error e
    | .ok (selected, total) =>
      let txID := "tx-" ++ toString nowNano
      let inputs := selected.map (fun u => UTXORef.mk u.originTx u.index)
      let change := total - amount
      let outputs :=
        { id := "", owner := receiverID, amount := amount, originTx := txID,
          index := 0, spent := false } ::
        (if 0 < change then
          [{ id := "", owner := senderID, amount := change, originTx := txID,
             index := 1, spent := false }]
         else [])
      let payload : Payload := { sender := senderID, receiver := receiverID,
                                 amount := amount, timestamp := now, note := note }
      match signWithPriv signFn privKey payload with
      | .error e => .error ("failed to sign transaction: " ++ e)
      | .ok sig =>
        .ok { id := txID, senderId := senderID, receiverId := receiverID,
              amount := amount, note := note, timestamp := now, pubKey := pubKey,
              signature := sig, inputs := inputs, outputs := outputs,
              txType := "transfer" }

/-- Go `(*TransactionService).CreateZakatTransaction`: system-authored levy
transaction — coin selection for the levied amount, one output of the levy
to `ZAKAT_POOL` at index 0, change back to the wallet at index 1 when
positive; sentinel `"system"` public key and signature, no signing. -/
def createZakatTransaction (entries : List UTXO) (walletID : String)
    (zakatAmount : Nat) (nowNano now : Int) : Except String Tx :=
  match selectUTXOs entries walletID zakatAmount with
  | .error e => .error e
  | .ok (selected, total) =>
    let txID := "zakat-" ++ toString nowNano
    let inputs := selected.map (fun u => UTXORef.mk u.originTx u.index)
    let change := total - zakatAmount
    let outputs :=
      { id := "", owner := "ZAKAT_POOL", amount := zakatAmount, originTx := txID,
        index := 0, spent := false } ::
      (if 0 < change then
        [{ id := "", owner := walletID, amount := change, originTx := txID,
           index := 1, spent := false }]
       else [])
    .ok { id := txID, senderId := walletID, receiverId := "ZAKAT_POOL",
          amount := zakatAmount, note := "Monthly Zakat Deduction (2.5%)",
          timestamp := now, pubKey := "system", signature := "system",
          inputs := inputs, outputs := outputs, txType := "zakat_deduction" }

/-! ## Periodic zakat levy (`services.ZakatService`)

The constants `ZakatNisab`, `ZakatRate` and `ZakatIntervalDays` live in
`blockchain/blockchain.go`, a file that is not among the provided sources. -/

/-- Modelled from the spec: `blockchain.ZakatNisab`, the minimum balance
for levy eligibility; the repository's configuration guide documents
`ZakatNisab = 500`. -/
def zakatNisab : Nat := 500

/-- Modelled from the spec: `blockchain.ZakatIntervalDays = 30`, expressed
in seconds. `ProcessMonthlyZakat` compares
`now.Sub(last).Hours()/24 < ZakatIntervalDays` in `float64`; for durations
measured in whole seconds this is exactly `now - last < 30·86400` (the
boundary value 2592000 s divides exactly, and a rounding error of relative
size 2^-52 cannot carry any other value across the boundary). -/
def zakatIntervalSecs : Int := 2592000

/-- Modelled from the spec: the levy amount
`uint64(float64(balance) * ZakatRate)` with `ZakatRate = 0.025` as the
configuration guide documents. In exact arithmetic this truncation is
`⌊balance · 25/1000⌋`; the `float64` round-trip computes the same value
for every balance below 2^52 (the relative error of at most a few 2^-52
cannot move the product across an integer boundary there). -/
def zakatAmountOf (balance : Nat) : Nat := balance * 25 / 1000

/-- One wallet's step of `(*ZakatService).ProcessMonthlyZakat`: skip system
wallets; skip when the last deduction is more recent than the interval;
skip below the Nisab threshold; skip a zero levy; otherwise build the levy
transaction (a construction failure is logged and skipped, leaving
`lastProcessed` unchanged) and record `lastProcessed = now`. Returns the
transaction submitted to the pending pool (if any) and the wallet's new
`lastProcessed` entry. `balance` is the `GetBalance` result, `last` the
wallet's `lastProcessed` entry, times in Unix seconds, `nowNano` the
transaction-id clock read. -/
def zakatStep (walletID : String) (last : Option Int) (now : Int) (balance : Nat)
    (entries : List UTXO) (nowNano : Int) : Option Tx × Option Int :=
  if walletID = "ZAKAT_POOL" ∨ walletID = "COINBASE" then (none, last)
  else if (match last with
           | some t => decide (now - t < zakatIntervalSecs)
           | none => false) then (none, last)
  else if balance < zakatNisab then (none, last)
  else if zakatAmountOf balance = 0 then (none, last)
  else
    match createZakatTransaction entries walletID (zakatAmountOf balance) nowNano now with
    | .error _ => (none, last)
    | .ok tx => (some tx, some now)

/-! ## Helper lemmas: the proof-of-work search -/

/-- `hashBlock` does not read the `hash` field. -/
theorem hashBlock_set_hash (b : Block) (x : String) :
    hashBlock { b with hash := x } = hashBlock b := rfl

/-- The proof-of-work loop only rewrites the nonce and the hash. -/
theorem powSearch_fields (pref : String) :
    ∀ (fuel : Nat) (nonce : Int) (b : Block),
    (powSearch pref fuel nonce b).index = b.index ∧
    (powSearch pref fuel nonce b).timestamp = b.timestamp ∧
    (powSearch pref fuel nonce b).transactions = b.transactions ∧
    (powSearch pref fuel nonce b).prevHash = b.prevHash ∧
    (powSearch pref fuel nonce b).merkleRoot = b.merkleRoot
  | 0, _, _ => ⟨rfl, rfl, rfl, rfl, rfl⟩
  | fuel + 1, nonce, b => by
    simp only [powSearch]
    split
    · exact ⟨rfl, rfl, rfl, rfl, rfl⟩
    · exact powSearch_fields pref fuel (nonce + 1) _

/-- The proof-of-work loop either exhausts its fuel — hash still empty,
nonce left at the last tried value — or stops at a hash that both equals
the recomputed block hash and carries the difficulty marker. -/
theorem powSearch_hash (pref : String) :
    ∀ (fuel : Nat) (nonce : Int) (b : Block), b.hash = "" →
    ((powSearch pref fuel nonce b).hash = "" ∧
     (powSearch pref fuel nonce b).nonce =
       (if fuel = 0 then b.nonce else nonce + fuel - 1)) ∨
    ((powSearch pref fuel nonce b).hash = hashBlock (powSearch pref fuel nonce b) ∧
     (powSearch pref fuel nonce b).hash.startsWith pref)
  | 0, _, b, hb => Or.inl ⟨hb, by simp [powSearch]⟩
  | fuel + 1, nonce, b, hb => by
    simp only [powSearch]
    split
    · next hpref =>
      right
      refine ⟨?_, hpref⟩
      exact (hashBlock_set_hash { b with nonce := nonce } (hashBlock { b with nonce := nonce })).symm
    · next hpref =>
      rcases powSearch_hash pref fuel (nonce + 1) { b with nonce := nonce } hb with
        ⟨h1, h2⟩ | h
      · left
        refine ⟨h1, ?_⟩
        rw [h2]
        rcases Nat.eq_zero_or_pos fuel with hf | hf
        · subst hf; simp
        · have : fuel ≠ 0 := Nat.pos_iff_ne_zero.mp hf
          simp only [this, if_false, Nat.succ_ne_zero, if_neg]
          push_cast
          omega
      · exact Or.inr h

/-- The hash-fallback patch at the end of `Mine` does not touch the
transaction list. -/
theorem hashPatch_transactions (b1 : Block) :
    (if b1.hash = "" then { b1 with hash := hashBlock b1 } else b1).transactions =
      b1.transactions := by
  split <;> rfl

/-- The transactions of a mined block: the coinbase first, then the whole
pending pool — nothing is re-validated or dropped at seal time. -/
theorem mine_transactions (bc : Chainstate) (ns : Int) (miner : String) (now : Int) :
    (mine bc ns miner now).1.transactions =
      coinbaseTx bc.chain.length now miner :: bc.pending := by
  show (minedBlock bc ns miner now).transactions = _
  rw [minedBlock, hashPatch_transactions]
  exact (powSearch_fields bc.difficultyPref maxIterations ns _).2.2.1

/-- The hash-fallback patch does not touch the Merkle root. -/
theorem hashPatch_merkleRoot (b1 : Block) :
    (if b1.hash = "" then { b1 with hash := hashBlock b1 } else b1).merkleRoot =
      b1.merkleRoot := by
  split <;> rfl

/-- The mining iteration budget is positive. -/
theorem maxIterations_ne_zero : maxIterations ≠ 0 := by
  simp [maxIterations]

/-- C6: however the nonce search ends, `Mine` returns a block whose hash is
the block's recomputed hash, and commits it: the chain is extended by
exactly that block, the UTXO transitions of all its transactions are
applied, and the pending pool is cleared. The returned hash either meets
the difficulty marker, or the budget of `maxIterations` nonces was
exhausted and the block carries the hash at the last tried nonce
`nonceStart + maxIterations - 1`, committed all the same. -/
theorem minedBlock_spec (bc : Chainstate) (ns : Int) (miner : String) (now : Int) :
    (minedBlock bc ns miner now).hash = hashBlock (minedBlock bc ns miner now) ∧
    ((minedBlock bc ns miner now).hash.startsWith bc.difficultyPref ∨
     (minedBlock bc ns miner now).nonce = ns + (maxIterations : Int) - 1) := by
  have h0 : (mineBlock0 bc miner now).hash = "" := rfl
  have hch := powSearch_hash bc.difficultyPref maxIterations ns (mineBlock0 bc miner now) h0
  rw [if_neg maxIterations_ne_zero] at hch
  simp only [minedBlock]
  generalize powSearch bc.difficultyPref maxIterations ns (mineBlock0 bc miner now) = P at hch ⊢
  rcases hch with ⟨h1, h2⟩ | ⟨h1, h2⟩
  · rw [if_pos h1]
    exact ⟨(hashBlock_set_hash _ _).symm, Or.inr h2⟩
  · by_cases he : P.hash = ""
    · rw [if_pos he]
      refine ⟨(hashBlock_set_hash _ _).symm, Or.inl ?_⟩
      show (hashBlock P).startsWith _
      rw [← h1]
      exact h2
    · rw [if_neg he]
      exact ⟨h1, Or.inl h2⟩

/-- C6: however the nonce search ends, `Mine` returns a block whose hash is
the block's recomputed hash, and commits it: the chain is extended by
exactly that block, the UTXO transitions of all its transactions are
applied, and the pending pool is cleared. The returned hash either meets
the difficulty marker, or the budget of `maxIterations` nonces was
exhausted and the block carries the hash at the last tried nonce
`nonceStart + maxIterations - 1`, committed all the same. -/
theorem mine_bounded_commit (bc : Chainstate) (ns : Int) (miner : String) (now : Int) :
    (mine bc ns miner now).2.chain = bc.chain ++ [(mine bc ns miner now).1] ∧
    (mine bc ns miner now).2.pending = [] ∧
    (mine bc ns miner now).2.utxos =
      applyBlockUTXOs bc.utxos ((mine bc ns miner now).1.transactions) ∧
    (mine bc ns miner now).1.hash = hashBlock (mine bc ns miner now).1 ∧
    ((mine bc ns miner now).1.hash.startsWith bc.difficultyPref ∨
     (mine bc ns miner now).1.nonce = ns + (maxIterations : Int) - 1) := by
  refine ⟨rfl, rfl, ?_, minedBlock_spec bc ns miner now⟩
  rw [mine_transactions]
  rfl

/-- C7: sealing over an empty pending pool yields a block with exactly the
reward transaction — zero inputs, the fixed reward amount, one output to
the miner — whose Merkle root is the root over that one transaction (the
leaf hash of its id), and the pending pool is empty after the commit. -/
theorem seal_empty_pool (bc : Chainstate) (ns : Int) (miner : String) (now : Int)
    (h : bc.pending = []) :
    (mine bc ns miner now).1.transactions = [coinbaseTx bc.chain.length now miner] ∧
    (coinbaseTx bc.chain.length now miner).inputs = [] ∧
    (coinbaseTx bc.chain.length now miner).amount = miningReward ∧
    (coinbaseTx bc.chain.length now miner).outputs.map (fun o => (o.owner, o.amount)) =
      [(miner, miningReward)] ∧
    (mine bc ns miner now).1.merkleRoot =
      computeMerkle [coinbaseTx bc.chain.length now miner] ∧
    (mine bc ns miner now).1.merkleRoot =
      sha256hex (coinbaseTx bc.chain.length now miner).id ∧
    (mine bc ns miner now).2.pending = [] := by
  have htx : (mine bc ns miner now).1.transactions =
      [coinbaseTx bc.chain.length now miner] := by
    rw [mine_transactions, h]
  have hroot : (mine bc ns miner now).1.merkleRoot =
      computeMerkle (coinbaseTx bc.chain.length now miner :: bc.pending) := by
    show (minedBlock bc ns miner now).merkleRoot = _
    rw [minedBlock, hashPatch_merkleRoot]
    exact (powSearch_fields bc.difficultyPref maxIterations ns _).2.2.2.2
  rw [h] at hroot
  refine ⟨htx, rfl, rfl, rfl, hroot, ?_, rfl⟩
  rw [hroot]
  rfl

/-- Concrete empty-pool state for the C7 witness: a genesis-only chain with
the production difficulty. -/
def bcEmptyPool : Chainstate :=
  { chain := [{ index := 0, timestamp := 0, transactions := [], prevHash := "0",
                nonce := 0, hash := "g", merkleRoot := "" }],
    pending := [], utxos := [], difficultyPref := "00000" }

/-- Witness for C7 at a concrete empty-pool state. -/
theorem seal_empty_pool_witness :
    bcEmptyPool.pending = [] ∧
    ((mine bcEmptyPool 0 "miner" 5).1.transactions = [coinbaseTx 1 5 "miner"] ∧
     (coinbaseTx 1 5 "miner").inputs = [] ∧
     (coinbaseTx 1 5 "miner").amount = miningReward ∧
     (coinbaseTx 1 5 "miner").outputs.map (fun o => (o.owner, o.amount)) =
       [("miner", miningReward)] ∧
     (mine bcEmptyPool 0 "miner" 5).1.merkleRoot = computeMerkle [coinbaseTx 1 5 "miner"] ∧
     (mine bcEmptyPool 0 "miner" 5).1.merkleRoot = sha256hex (coinbaseTx 1 5 "miner").id ∧
     (mine bcEmptyPool 0 "miner" 5).2.pending = []) :=
  ⟨rfl, seal_empty_pool bcEmptyPool 0 "miner" 5 rfl⟩

/-! ## C1: the seal-time double-spend re-check does not exist -/

/-- A UTXO that two pending transactions both reference. -/
def cexUTXO : UTXO :=
  { id := "o:0", owner := "A", amount := 10, originTx := "o", index := 0, spent := false }

/-- First pending transaction spending `(o, 0)`. -/
def cexTx1 : Tx :=
  { id := "t1", senderId := "A", receiverId := "B", amount := 10, note := "",
    timestamp := 0, pubKey := "p", signature := "s",
    inputs := [{ txid := "o", index := 0 }],
    outputs := [{ id := "", owner := "B", amount := 10, originTx := "t1",
                  index := 0, spent := false }],
    txType := "transfer" }

/-- Second pending transaction spending the same `(o, 0)`. -/
def cexTx2 : Tx :=
  { id := "t2", senderId := "A", receiverId := "C", amount := 10, note := "",
    timestamp := 0, pubKey := "p", signature := "s2",
    inputs := [{ txid := "o", index := 0 }],
    outputs := [{ id := "", owner := "C", amount := 10, originTx := "t2",
                  index := 0, spent := false }],
    txType := "transfer" }

/-- A ledger state whose pending pool holds both colliding transactions
(reachable: `AddPending` performs no validation, and even validated
transactions can both pass against the same unspent UTXO before either is
sealed). -/
def cexChain : Chainstate :=
  { chain := [{ index := 0, timestamp := 0, transactions := [], prevHash := "0",
                nonce := 0, hash := "g", merkleRoot := "" }],
    pending := [cexTx1, cexTx2],
    utxos := [("o:0", cexUTXO)],
    difficultyPref := "00000" }

/-- C1 (failing input): sealing `cexChain` commits **both** transactions
that spend the input `(o, 0)` — `Mine` performs no seal-time re-check and
drops nothing, so the pair `(o, 0)` is referenced as an input by two
different sealed transactions, contradicting the claimed invariant. -/
theorem seal_commits_double_spend :
    (mine cexChain 0 "M" 7).1.transactions = [coinbaseTx 1 7 "M", cexTx1, cexTx2] ∧
    (mine cexChain 0 "M" 7).2.chain =
      cexChain.chain ++ [(mine cexChain 0 "M" 7).1] ∧
    cexTx1.inputs = [{ txid := "o", index := 0 }] ∧
    cexTx2.inputs = [{ txid := "o", index := 0 }] ∧
    cexTx1 ≠ cexTx2 := by
  refine ⟨?_, rfl, rfl, rfl, by decide⟩
  rw [mine_transactions]
  rfl

/-! ## C2: the Merkle root is order-dependent; the block hash is not -/

/-- A minimal transaction with id `"a"`. -/
def mTxA : Tx :=
  { id := "a", senderId := "", receiverId := "", amount := 0, note := "",
    timestamp := 0, pubKey := "", signature := "", inputs := [], outputs := [],
    txType := "" }

/-- A minimal transaction with id `"b"`. -/
def mTxB : Tx :=
  { id := "b", senderId := "", receiverId := "", amount := 0, note := "",
    timestamp := 0, pubKey := "", signature := "", inputs := [], outputs := [],
    txType := "" }

set_option maxRecDepth 100000 in
/-- C2 (counterexample): `computeMerkle` hashes the transaction ids in list
order without sorting them, so two permuted transaction lists yield
different Merkle roots. -/
theorem computeMerkle_order_dependent :
    ([mTxA, mTxB] : List Tx).Perm [mTxB, mTxA] ∧
    computeMerkle [mTxA, mTxB] ≠ computeMerkle [mTxB, mTxA] := by
  refine ⟨List.Perm.swap mTxB mTxA [], ?_⟩
  decide

/-- Sorting is invariant under permutation of the input: the sorted list is
the unique `≤`-sorted permutation (string keys that compare equal are
identical). -/
theorem sortStrings_perm_eq {l1 l2 : List String} (h : l1.Perm l2) :
    sortStrings l1 = sortStrings l2 := by
  have hs1 : List.Sorted (fun a b : String => a ≤ b) (sortStrings l1) :=
    List.sorted_insertionSort _ l1
  have hs2 : List.Sorted (fun a b : String => a ≤ b) (sortStrings l2) :=
    List.sorted_insertionSort _ l2
  have hp : (sortStrings l1).Perm (sortStrings l2) :=
    (List.perm_insertionSort _ l1).trans (h.trans (List.perm_insertionSort _ l2).symm)
  exact List.eq_of_perm_of_sorted hp hs1 hs2

/-- C2 (amended): it is the block hash, not the Merkle root, that sorts the
transaction ids before hashing: `hashBlock` yields the same hash for any
two blocks whose transaction-id lists are permutations of each other and
whose other hashed fields agree. -/
theorem hashBlock_perm_invariant (b1 b2 : Block)
    (hids : (b1.transactions.map (fun t => t.id)).Perm
            (b2.transactions.map (fun t => t.id)))
    (hI : b1.index = b2.index) (hT : b1.timestamp = b2.timestamp)
    (hP : b1.prevHash = b2.prevHash) (hN : b1.nonce = b2.nonce) :
    hashBlock b1 = hashBlock b2 := by
  unfold hashBlock
  rw [hI, hT, hP, hN, sortStrings_perm_eq hids]

/-- A block holding `[mTxA, mTxB]`. -/
def blkAB : Block :=
  { index := 1, timestamp := 2, transactions := [mTxA, mTxB], prevHash := "p",
    nonce := 3, hash := "", merkleRoot := "" }

/-- The same block with the transactions swapped. -/
def blkBA : Block :=
  { index := 1, timestamp := 2, transactions := [mTxB, mTxA], prevHash := "p",
    nonce := 3, hash := "", merkleRoot := "" }

/-- Witness for the amended C2 at the concrete swapped blocks. -/
theorem hashBlock_perm_invariant_witness :
    (blkAB.transactions.map (fun t => t.id)).Perm
      (blkBA.transactions.map (fun t => t.id)) ∧
    hashBlock blkAB = hashBlock blkBA :=
  ⟨List.Perm.swap "b" "a" [],
   hashBlock_perm_invariant blkAB blkBA (List.Perm.swap "b" "a" []) rfl rfl rfl rfl⟩

/-! ## C3: the validation conditions, exactly -/

/-- The input loop of `ValidateTransaction` succeeds exactly when every
referenced UTXO exists, is unspent, and is owned by the sender. -/
theorem checkInputs_ok_iff (m : List (String × UTXO)) (sender : String) :
    ∀ inputs : List UTXORef,
    (checkInputs m sender inputs = .ok () ↔
      ∀ r ∈ inputs, ∃ u, assocGet m (refKey r) = some u ∧ u.spent = false ∧
        u.owner = sender)
  | [] => by simp [checkInputs]
  | r :: rest => by
    simp only [checkInputs, List.mem_cons]
    cases hget : assocGet m (refKey r) with
    | none =>
      constructor
      · intro h
        simp at h
      · intro h
        rcases h r (Or.inl rfl) with ⟨u, hu, _⟩
        rw [hget] at hu
        cases hu
    | some u =>
      show ((if u.spent = true then _ else _) = Except.ok () ↔ _)
      by_cases hs : u.spent = true
      · rw [if_pos hs]
        constructor
        · intro h
          simp at h
        · intro h
          rcases h r (Or.inl rfl) with ⟨u2, hu2, hsp, _⟩
          rw [hget] at hu2
          cases hu2
          rw [hs] at hsp
          cases hsp
      · by_cases ho : u.owner = sender
        · have hrec := checkInputs_ok_iff m sender rest
          rw [if_neg hs, if_neg (by simp [ho]), hrec]
          constructor
          · intro h r2 hr2
            rcases hr2 with hr2 | hr2
            · subst hr2
              exact ⟨u, hget, by simpa using hs, ho⟩
            · exact h r2 hr2
          · intro h r2 hr2
            exact h r2 (Or.inr hr2)
        · rw [if_neg hs, if_pos (by simp [ho])]
          constructor
          · intro h
            simp at h
          · intro h
            rcases h r (Or.inl rfl) with ⟨u2, hu2, _, how⟩
            rw [hget] at hu2
            cases hu2
            exact (ho how).elim

set_option maxRecDepth 4000 in
/-- C3: `ValidateTransaction` succeeds **iff** the signature verifies
against the declared public key over the recomputed canonical payload, the
wallet id derived from that key equals the declared sender, every input
UTXO exists, is unspent and is owned by the sender, and the (`uint64`)
input and output totals agree. The Go function only reads the ledger, so
on every path — success or error — the ledger state is unchanged (the
embedding is a pure function of the state). `verifyFn` is the abstract
Ed25519 verification primitive. -/
theorem validateTransaction_ok_iff (verifyFn : List Nat → Payload → List Nat → Bool)
    (bc : Chainstate) (tx : Tx) :
    validateTransaction verifyFn bc tx = .ok () ↔
    ((∃ pub sig, hexDecode tx.pubKey = some pub ∧ hexDecode tx.signature = some sig ∧
        verifyFn pub (txPayload tx) sig = true) ∧
     walletIDFromPub tx.pubKey = some tx.senderId ∧
     (∀ r ∈ tx.inputs, ∃ u, assocGet bc.utxos (refKey r) = some u ∧
        u.spent = false ∧ u.owner = tx.senderId) ∧
     inputsTotal bc.utxos tx = outputsTotal tx) := by
  cases hpub : hexDecode tx.pubKey with
  | none =>
    have hr : validateTransaction verifyFn bc tx =
        .error ("signature verification error: " ++ "bad public key hex") := by
      unfold validateTransaction verifySignature
      simp only [hpub]
    rw [hr]
    simp [walletIDFromPub, hpub]
  | some pub =>
    cases hsig : hexDecode tx.signature with
    | none =>
      have hr : validateTransaction verifyFn bc tx =
          .error ("signature verification error: " ++ "bad signature hex") := by
        unfold validateTransaction verifySignature
        simp only [hpub, hsig]
      rw [hr]
      simp
    | some sig =>
      have hwid : walletIDFromPub tx.pubKey = some ((toHex (sha256 pub)).take 40) := by
        simp [walletIDFromPub, hpub]
      cases hv : verifyFn pub (txPayload tx) sig with
      | false =>
        have hr : validateTransaction verifyFn bc tx = .error "invalid signature" := by
          unfold validateTransaction verifySignature
          simp only [hpub, hsig, hv]
        rw [hr]
        constructor
        · intro h
          simp at h
        · rintro ⟨⟨pub2, sig2, hp2, hs2, hv2⟩, -⟩
          cases hp2
          cases hs2
          rw [hv] at hv2
          cases hv2
      | true =>
        have hr : validateTransaction verifyFn bc tx =
            (if (toHex (sha256 pub)).take 40 ≠ tx.senderId then
              .error "public key does not match sender wallet ID"
             else
              match checkInputs bc.utxos tx.senderId tx.inputs with
              | .error e => .error e
              | .ok () =>
                if inputsTotal bc.utxos tx ≠ outputsTotal tx then
                  .error "input total does not match output total"
                else .ok ()) := by
          unfold validateTransaction verifySignature
          simp only [hpub, hsig, hv, hwid]
        rw [hr]
        by_cases hid : (toHex (sha256 pub)).take 40 = tx.senderId
        · rw [if_neg (fun hne => hne hid)]
          cases hchk : checkInputs bc.utxos tx.senderId tx.inputs with
          | error e =>
            constructor
            · intro h
              exact Except.noConfusion h
            · rintro ⟨-, -, hins, -⟩
              have hok : checkInputs bc.utxos tx.senderId tx.inputs = .ok () :=
                (checkInputs_ok_iff bc.utxos tx.senderId tx.inputs).mpr hins
              rw [hchk] at hok
              cases hok
          | ok u =>
            cases u
            by_cases htot : inputsTotal bc.utxos tx = outputsTotal tx
            · rw [if_neg (fun hne => hne htot)]
              constructor
              · intro _
                exact ⟨⟨pub, sig, rfl, rfl, hv⟩, hid ▸ hwid,
                  (checkInputs_ok_iff bc.utxos tx.senderId tx.inputs).mp hchk, htot⟩
              · intro _
                rfl
            · rw [if_pos htot]
              constructor
              · intro h
                exact Except.noConfusion h
              · rintro ⟨-, -, -, h4⟩
                exact absurd h4 htot
        · rw [if_pos hid]
          constructor
          · intro h
            exact Except.noConfusion h
          · rintro ⟨-, h2, -⟩
            rw [hwid] at h2
            exact absurd (Option.some.inj h2) hid

/-! ## C4 and C5: coin selection -/

/-- Exact (unwrapped) total amount of a UTXO list. -/
def sumAmounts (l : List UTXO) : Nat := (l.map (fun u => u.amount)).sum

theorem sumAmounts_nil : sumAmounts [] = 0 := rfl

theorem sumAmounts_cons (u : UTXO) (l : List UTXO) :
    sumAmounts (u :: l) = u.amount + sumAmounts l := by
  simp [sumAmounts]

instance : IsTotal UTXO amountGE :=
  ⟨fun a b => Nat.le_total b.amount a.amount⟩

instance : IsTrans UTXO amountGE :=
  ⟨fun _ _ _ hab hbc => Nat.le_trans hbc hab⟩

instance : IsAntisymm Nat (fun a b : Nat => b ≤ a) :=
  ⟨fun _ _ h1 h2 => Nat.le_antisymm h2 h1⟩

/-- The total of all available outputs is conserved by sorting. -/
theorem sumAmounts_sort (l : List UTXO) :
    sumAmounts (List.insertionSort amountGE l) = sumAmounts l := by
  unfold sumAmounts
  exact ((List.perm_insertionSort amountGE l).map (fun u => u.amount)).sum_eq

/-- When the greedy loop stops short of the requested amount, it has
consumed the whole candidate list. -/
theorem greedyGo_consumed_all : ∀ (l : List UTXO) (amount total : Nat),
    total + sumAmounts l < U64 → (greedyGo l amount total).2 < amount →
    (greedyGo l amount total).2 = total + sumAmounts l
  | [], _, total, _, _ => by simp [greedyGo, sumAmounts]
  | u :: rest, amount, total, hov, h => by
    rw [sumAmounts_cons] at hov
    by_cases hc : amount ≤ total
    · simp only [greedyGo, if_pos hc] at h
      exact absurd h (Nat.not_lt.mpr hc)
    · have hmod : (total + u.amount) % U64 = total + u.amount :=
        Nat.mod_eq_of_lt (by omega)
      simp only [greedyGo, if_neg hc, hmod] at h ⊢
      have hrec := greedyGo_consumed_all rest amount (total + u.amount)
        (by omega) h
      rw [hrec, sumAmounts_cons]
      omega

/-- The greedy total never exceeds the total of the candidate list. -/
theorem greedyGo_le_sum : ∀ (l : List UTXO) (amount total : Nat),
    total + sumAmounts l < U64 →
    (greedyGo l amount total).2 ≤ total + sumAmounts l
  | [], _, total, _ => by simp [greedyGo, sumAmounts]
  | u :: rest, amount, total, hov => by
    rw [sumAmounts_cons] at hov
    by_cases hc : amount ≤ total
    · simp only [greedyGo, if_pos hc]
      omega
    · have hmod : (total + u.amount) % U64 = total + u.amount :=
        Nat.mod_eq_of_lt (by omega)
      simp only [greedyGo, if_neg hc, hmod]
      have hrec := greedyGo_le_sum rest amount (total + u.amount) (by omega)
      rw [sumAmounts_cons]
      omega

/-- The greedy loop selects an initial segment of the candidate list. -/
theorem greedyGo_take : ∀ (l : List UTXO) (amount total : Nat),
    (greedyGo l amount total).1 = l.take (greedyGo l amount total).1.length
  | [], _, _ => by simp [greedyGo]
  | u :: rest, amount, total => by
    by_cases hc : amount ≤ total
    · simp [greedyGo, if_pos hc]
    · simp only [greedyGo, if_neg hc, List.length_cons, List.take_succ_cons,
        List.cons.injEq, true_and]
      exact greedyGo_take rest amount ((total + u.amount) % U64)

/-- The greedy total is the starting total plus the selected amounts. -/
theorem greedyGo_total_sum : ∀ (l : List UTXO) (amount total : Nat),
    total + sumAmounts l < U64 →
    (greedyGo l amount total).2 = total + sumAmounts (greedyGo l amount total).1
  | [], _, total, _ => by simp [greedyGo, sumAmounts]
  | u :: rest, amount, total, hov => by
    rw [sumAmounts_cons] at hov
    by_cases hc : amount ≤ total
    · simp [greedyGo, if_pos hc, sumAmounts]
    · have hmod : (total + u.amount) % U64 = total + u.amount :=
        Nat.mod_eq_of_lt (by omega)
      simp only [greedyGo, if_neg hc, hmod]
      have hrec := greedyGo_total_sum rest amount (total + u.amount) (by omega)
      rw [sumAmounts_cons, hrec]
      omega

/-- The greedy total below the request happens exactly when all available
funds fall short. -/
theorem greedyGo_short_iff (entries : List UTXO) (w : String) (amount : Nat)
    (hov : sumAmounts (availableOf entries w) < U64) :
    ((greedyGo (List.insertionSort amountGE (availableOf entries w)) amount 0).2 < amount ↔
      sumAmounts (availableOf entries w) < amount) := by
  have hovs : (0 : Nat) + sumAmounts (List.insertionSort amountGE (availableOf entries w)) < U64 := by
    rw [Nat.zero_add, sumAmounts_sort]
    exact hov
  constructor
  · intro hc
    have h2 := greedyGo_consumed_all _ amount 0 hovs hc
    rw [Nat.zero_add, sumAmounts_sort] at h2
    rw [h2] at hc
    exact hc
  · intro hs
    have h3 := greedyGo_le_sum _ amount 0 hovs
    rw [Nat.zero_add, sumAmounts_sort] at h3
    omega

deriving instance DecidableEq for Except

/-- Scenario UTXO of amount 70 owned by account A. -/
def scen70 : UTXO :=
  { id := "x:0", owner := "A", amount := 70, originTx := "x", index := 0, spent := false }

/-- Scenario UTXO of amount 30 owned by account A. -/
def scen30 : UTXO :=
  { id := "y:0", owner := "A", amount := 30, originTx := "y", index := 0, spent := false }

/-- Scenario UTXO of amount 10 owned by account A. -/
def scen10 : UTXO :=
  { id := "z:0", owner := "A", amount := 10, originTx := "z", index := 0, spent := false }

/-- A syntactically valid 64-byte private key in hex (for the scenario). -/
def privZeros : String :=
  "00000000000000000000000000000000000000000000000000000000000000000000000000000000000000000000000000000000000000000000000000000000"

/-- C4: coin selection filters to the account's unspent outputs, sorts them
descending by amount, and greedily accumulates until the request is
covered: it fails with the insufficient-balance error exactly when the
total of all such outputs is below the request; on success the total
covers the request, the selection is an initial segment of the
descending-sorted candidates, and the total is the sum of the selection.
In particular, with unspent outputs 70, 30, 10 and a request of 65 the
selection is `{70}` and the built transaction pays 65 to the receiver and
5 change back to A. -/
theorem selectUTXOs_greedy_spec (signFn : List Nat → Payload → List Nat)
    (entries : List UTXO) (w : String) (amount : Nat)
    (hov : sumAmounts (availableOf entries w) < U64) :
    (selectUTXOs entries w amount = .error "insufficient balance" ↔
      sumAmounts (availableOf entries w) < amount) ∧
    (∀ sel total, selectUTXOs entries w amount = .ok (sel, total) →
      amount ≤ total ∧
      List.Sorted amountGE (List.insertionSort amountGE (availableOf entries w)) ∧
      sel = (List.insertionSort amountGE (availableOf entries w)).take sel.length ∧
      total = sumAmounts sel) ∧
    selectUTXOs [scen70, scen30, scen10] "A" 65 = .ok ([scen70], 70) ∧
    (∃ tx, createTransaction signFn ["A", "B"] [scen70, scen30, scen10] "A" "B" 65 ""
        "p" privZeros 3 4 = .ok tx ∧
      tx.inputs = [{ txid := "x", index := 0 }] ∧
      tx.outputs.map (fun o => (o.owner, o.amount)) = [("B", 65), ("A", 5)]) := by
  have hovs : (0 : Nat) + sumAmounts (List.insertionSort amountGE (availableOf entries w)) < U64 := by
    rw [Nat.zero_add, sumAmounts_sort]
    exact hov
  have hkey := greedyGo_short_iff entries w amount hov
  refine ⟨?_, ?_, by decide, ?_⟩
  · unfold selectUTXOs
    by_cases hc :
        (greedyGo (List.insertionSort amountGE (availableOf entries w)) amount 0).2 < amount
    · rw [if_pos hc]
      exact iff_of_true rfl (hkey.mp hc)
    · rw [if_neg hc]
      constructor
      · intro h
        exact Except.noConfusion h
      · intro hs
        exact absurd (hkey.mpr hs) hc
  · intro sel total hok
    unfold selectUTXOs at hok
    by_cases hc :
        (greedyGo (List.insertionSort amountGE (availableOf entries w)) amount 0).2 < amount
    · rw [if_pos hc] at hok
      exact Except.noConfusion hok
    · rw [if_neg hc] at hok
      have hpair := Except.ok.inj hok
      have hsel : (greedyGo (List.insertionSort amountGE (availableOf entries w)) amount 0).1 = sel :=
        congrArg Prod.fst hpair
      have htot : (greedyGo (List.insertionSort amountGE (availableOf entries w)) amount 0).2 = total :=
        congrArg Prod.snd hpair
      refine ⟨by omega, List.sorted_insertionSort amountGE _, ?_, ?_⟩
      · rw [← hsel]
        exact greedyGo_take _ amount 0
      · rw [← hsel, ← htot]
        have := greedyGo_total_sum _ amount 0 hovs
        rw [Nat.zero_add] at this
        exact this
  · exact ⟨_, rfl, rfl, rfl⟩

/-- Witness for C4 at a concrete state (the scenario itself). -/
theorem selectUTXOs_greedy_spec_witness :
    sumAmounts (availableOf [scen70, scen30, scen10] "A") < U64 ∧
    ((selectUTXOs [scen70, scen30, scen10] "A" 65 = .error "insufficient balance" ↔
       sumAmounts (availableOf [scen70, scen30, scen10] "A") < 65) ∧
     (∀ sel total, selectUTXOs [scen70, scen30, scen10] "A" 65 = .ok (sel, total) →
       65 ≤ total ∧
       List.Sorted amountGE
         (List.insertionSort amountGE (availableOf [scen70, scen30, scen10] "A")) ∧
       sel = (List.insertionSort amountGE
         (availableOf [scen70, scen30, scen10] "A")).take sel.length ∧
       total = sumAmounts sel) ∧
     selectUTXOs [scen70, scen30, scen10] "A" 65 = .ok ([scen70], 70) ∧
     (∃ tx, createTransaction (fun _ _ => []) ["A", "B"] [scen70, scen30, scen10]
         "A" "B" 65 "" "p" privZeros 3 4 = .ok tx ∧
       tx.inputs = [{ txid := "x", index := 0 }] ∧
       tx.outputs.map (fun o => (o.owner, o.amount)) = [("B", 65), ("A", 5)])) :=
  ⟨by decide,
   selectUTXOs_greedy_spec (fun _ _ => []) [scen70, scen30, scen10] "A" 65 (by decide)⟩

/-- A first UTXO of amount 50 owned by account A. -/
def tieU1 : UTXO :=
  { id := "a:0", owner := "A", amount := 50, originTx := "a", index := 0, spent := false }

/-- A second, distinct UTXO also of amount 50 owned by account A. -/
def tieU2 : UTXO :=
  { id := "b:0", owner := "A", amount := 50, originTx := "b", index := 0, spent := false }

/-- C5 (counterexample): two iteration orders of the same UTXO state — Go
map iteration order is unspecified and `sort.Slice` is unstable — give
different selections when distinct UTXOs carry equal amounts: the claimed
stable tie-break does not exist. -/
theorem selectUTXOs_tie_unstable :
    ([tieU1, tieU2] : List UTXO).Perm [tieU2, tieU1] ∧
    selectUTXOs [tieU1, tieU2] "A" 50 = .ok ([tieU1], 50) ∧
    selectUTXOs [tieU2, tieU1] "A" 50 = .ok ([tieU2], 50) ∧
    selectUTXOs [tieU1, tieU2] "A" 50 ≠ selectUTXOs [tieU2, tieU1] "A" 50 :=
  ⟨List.Perm.swap tieU2 tieU1 [], by decide, by decide, by decide⟩

/-- The greedy loop on the amount projection alone. -/
def greedyAmounts (l : List Nat) (amount total : Nat) : List Nat × Nat :=
  match l with
  | [] => ([], total)
  | a :: rest =>
    if amount ≤ total then ([], total)
    else
      let r := greedyAmounts rest amount ((total + a) % U64)
      (a :: r.1, r.2)

/-- The greedy loop reads only the amounts of its candidates. -/
theorem greedyGo_amounts : ∀ (l : List UTXO) (amount total : Nat),
    (greedyGo l amount total).1.map (fun u => u.amount) =
      (greedyAmounts (l.map (fun u => u.amount)) amount total).1 ∧
    (greedyGo l amount total).2 =
      (greedyAmounts (l.map (fun u => u.amount)) amount total).2
  | [], _, _ => ⟨rfl, rfl⟩
  | u :: rest, amount, total => by
    by_cases hc : amount ≤ total
    · simp [greedyGo, greedyAmounts, if_pos hc]
    · simp only [greedyGo, greedyAmounts, List.map_cons, if_neg hc, List.map]
      exact ⟨congrArg (u.amount :: ·) (greedyGo_amounts rest amount _).1,
             (greedyGo_amounts rest amount _).2⟩

/-- Two iteration orders of the same state produce the same sorted amount
sequence (the sorted amount list is the unique `≥`-sorted permutation of
the available amounts). -/
theorem sorted_amounts_eq (o1 o2 : List UTXO) (w : String) (h : o1.Perm o2) :
    (List.insertionSort amountGE (availableOf o1 w)).map (fun u => u.amount) =
    (List.insertionSort amountGE (availableOf o2 w)).map (fun u => u.amount) := by
  have hperm :
      ((List.insertionSort amountGE (availableOf o1 w)).map (fun u => u.amount)).Perm
      ((List.insertionSort amountGE (availableOf o2 w)).map (fun u => u.amount)) := by
    refine List.Perm.map _ ?_
    exact (List.perm_insertionSort amountGE _).trans
      ((h.filter _).trans (List.perm_insertionSort amountGE _).symm)
  have hs1 : List.Pairwise (fun a b : Nat => b ≤ a)
      ((List.insertionSort amountGE (availableOf o1 w)).map (fun u => u.amount)) :=
    List.Pairwise.map _ (fun _ _ hab => hab) (List.sorted_insertionSort amountGE _)
  have hs2 : List.Pairwise (fun a b : Nat => b ≤ a)
      ((List.insertionSort amountGE (availableOf o2 w)).map (fun u => u.amount)) :=
    List.Pairwise.map _ (fun _ _ hab => hab) (List.sorted_insertionSort amountGE _)
  exact List.eq_of_perm_of_sorted hperm hs1 hs2

/-- C5 (amended): for any two iteration orders of the same UTXO state, coin
selection returns the same error status, the same selected amount
sequence, and the same total — but (per the counterexample) not
necessarily the same UTXOs among equal amounts. -/
theorem selectUTXOs_amounts_deterministic (o1 o2 : List UTXO) (w : String)
    (amount : Nat) (h : o1.Perm o2) :
    Except.map (fun r => (r.1.map (fun u => u.amount), r.2)) (selectUTXOs o1 w amount) =
    Except.map (fun r => (r.1.map (fun u => u.amount), r.2)) (selectUTXOs o2 w amount) := by
  have hA := sorted_amounts_eq o1 o2 w h
  have h1 := greedyGo_amounts (List.insertionSort amountGE (availableOf o1 w)) amount 0
  have h2 := greedyGo_amounts (List.insertionSort amountGE (availableOf o2 w)) amount 0
  have ht : (greedyGo (List.insertionSort amountGE (availableOf o1 w)) amount 0).2 =
      (greedyGo (List.insertionSort amountGE (availableOf o2 w)) amount 0).2 := by
    rw [h1.2, h2.2, hA]
  have hsel : (greedyGo (List.insertionSort amountGE (availableOf o1 w)) amount 0).1.map
        (fun u => u.amount) =
      (greedyGo (List.insertionSort amountGE (availableOf o2 w)) amount 0).1.map
        (fun u => u.amount) := by
    rw [h1.1, h2.1, hA]
  unfold selectUTXOs
  by_cases hc : (greedyGo (List.insertionSort amountGE (availableOf o1 w)) amount 0).2 < amount
  · rw [if_pos hc, if_pos (ht ▸ hc)]
  · rw [if_neg hc, if_neg (ht ▸ hc)]
    simp only [Except.map]
    rw [hsel, ht]

/-- Witness for the amended C5 at the two concrete tie orders. -/
theorem selectUTXOs_amounts_deterministic_witness :
    ([tieU1, tieU2] : List UTXO).Perm [tieU2, tieU1] ∧
    Except.map (fun r => (r.1.map (fun u => u.amount), r.2))
      (selectUTXOs [tieU1, tieU2] "A" 50) =
    Except.map (fun r => (r.1.map (fun u => u.amount), r.2))
      (selectUTXOs [tieU2, tieU1] "A" 50) :=
  ⟨List.Perm.swap tieU2 tieU1 [],
   selectUTXOs_amounts_deterministic [tieU1, tieU2] [tieU2, tieU1] "A" 50
     (List.Perm.swap tieU2 tieU1 [])⟩

/-! ## C8 and C9: the periodic levy -/

/-- A zero levy is always skipped (no transaction, `lastProcessed`
unchanged). -/
theorem zakatStep_zero_skip (w : String) (l : Option Int) (n : Int) (b : Nat)
    (e : List UTXO) (nn : Int) (hz : zakatAmountOf b = 0) :
    zakatStep w l n b e nn = (none, l) := by
  unfold zakatStep
  by_cases h1 : w = "ZAKAT_POOL" ∨ w = "COINBASE"
  · rw [if_pos h1]
  · rw [if_neg h1]
    cases hbm : (match l with
        | some t => decide (n - t < zakatIntervalSecs)
        | none => false) with
    | true => rw [if_pos rfl]
    | false =>
      rw [if_neg Bool.false_ne_true]
      by_cases h3 : b < zakatNisab
      · rw [if_pos h3]
      · rw [if_neg h3, if_pos hz]

/-- The levy of an account at or above the Nisab threshold is positive. -/
theorem zakatAmountOf_pos (balance : Nat) (hbal : zakatNisab ≤ balance) :
    zakatAmountOf balance ≠ 0 := by
  have h1000 : (0 : Nat) < 1000 := by omega
  have : 1 ≤ balance * 25 / 1000 := by
    rw [Nat.le_div_iff_mul_le h1000]
    unfold zakatNisab at hbal
    omega
  unfold zakatAmountOf
  omega

/-- The single 1000-coin UTXO of the levy scenario. -/
def zakEntry : UTXO :=
  { id := "f:0", owner := "W", amount := 1000, originTx := "f", index := 0,
    spent := false }

/-- C8: for an eligible account (not a system account, interval elapsed,
balance at the threshold or above) the levy tick computes
`levied = ⌊balance · 2.5%⌋`, skips on a zero levy, builds the levy
transaction through coin selection — one output of the levied amount to
the `ZAKAT_POOL` account, the remainder of the selected inputs back to the
account — submits it and records `lastProcessed = now`. In particular, a
balance of 1000 levies 25 and returns 975 to the account. -/
theorem zakat_levy_spec (wid : String) (last : Option Int) (now : Int) (balance : Nat)
    (entries : List UTXO) (nn : Int)
    (hsys : ¬(wid = "ZAKAT_POOL" ∨ wid = "COINBASE"))
    (hint : ∀ t, last = some t → zakatIntervalSecs ≤ now - t)
    (hbal : zakatNisab ≤ balance) :
    (zakatStep wid last now balance entries nn =
      match createZakatTransaction entries wid (zakatAmountOf balance) nn now with
      | .error _ => (none, last)
      | .ok tx => (some tx, some now)) ∧
    (∀ b2 : Nat, zakatAmountOf b2 = 0 →
      ∀ (w2 : String) (l2 : Option Int) (n2 nn2 : Int) (e2 : List UTXO),
        zakatStep w2 l2 n2 b2 e2 nn2 = (none, l2)) ∧
    (∀ sel total, selectUTXOs entries wid (zakatAmountOf balance) = .ok (sel, total) →
      ∃ tx, createZakatTransaction entries wid (zakatAmountOf balance) nn now = .ok tx ∧
        tx.amount = zakatAmountOf balance ∧
        tx.receiverId = "ZAKAT_POOL" ∧
        tx.senderId = wid ∧
        tx.outputs.map (fun o => (o.owner, o.amount)) =
          ("ZAKAT_POOL", zakatAmountOf balance) ::
          (if 0 < total - zakatAmountOf balance then
            [(wid, total - zakatAmountOf balance)]
           else [])) ∧
    (zakatStep "W" none 7 1000 [zakEntry] 3).1.map
        (fun tx => (tx.amount, tx.outputs.map (fun o => (o.owner, o.amount)))) =
      some (25, [("ZAKAT_POOL", 25), ("W", 975)]) := by
  refine ⟨?_, fun b2 hz w2 l2 n2 nn2 e2 => zakatStep_zero_skip w2 l2 n2 b2 e2 nn2 hz,
    ?_, by decide⟩
  · unfold zakatStep
    rw [if_neg hsys]
    cases last with
    | none =>
      rw [show (match (none : Option Int) with
          | some t => decide (now - t < zakatIntervalSecs)
          | none => false) = false from rfl]
      rw [if_neg Bool.false_ne_true]
      rw [if_neg (Nat.not_lt.mpr hbal), if_neg (zakatAmountOf_pos balance hbal)]
    | some t =>
      have hge := hint t rfl
      rw [show (match (some t : Option Int) with
          | some t2 => decide (now - t2 < zakatIntervalSecs)
          | none => false) = false from by
        show decide (now - t < zakatIntervalSecs) = false
        simp only [decide_eq_false_iff_not]
        omega]
      rw [if_neg Bool.false_ne_true]
      rw [if_neg (Nat.not_lt.mpr hbal), if_neg (zakatAmountOf_pos balance hbal)]
  · intro sel total hsel
    unfold createZakatTransaction
    rw [hsel]
    refine ⟨_, rfl, rfl, rfl, rfl, ?_⟩
    by_cases hch : 0 < total - zakatAmountOf balance
    · rw [if_pos hch, if_pos hch]
      rfl
    · rw [if_neg hch, if_neg hch]
      rfl

/-- Witness for C8 at the concrete levy scenario. -/
theorem zakat_levy_spec_witness :
    (¬(("W" : String) = "ZAKAT_POOL" ∨ ("W" : String) = "COINBASE")) ∧
    zakatNisab ≤ 1000 ∧
    (zakatStep "W" none 7 1000 [zakEntry] 3).1.map
        (fun tx => (tx.amount, tx.outputs.map (fun o => (o.owner, o.amount)))) =
      some (25, [("ZAKAT_POOL", 25), ("W", 975)]) :=
  ⟨by decide, by decide,
   (zakat_levy_spec "W" none 7 1000 [zakEntry] 3 (by decide)
     (fun t h => Option.noConfusion h) (by decide)).2.2.2⟩

/-- C9: any account whose balance is below the Nisab threshold is skipped
by the levy tick: no transaction is generated and its `lastProcessed`
entry is unchanged. In particular with balance 400 against the threshold
of 500 (interval long elapsed) nothing is generated and the record keeps
its old value. -/
theorem zakat_below_threshold_skips (wid : String) (last : Option Int) (now : Int)
    (balance : Nat) (entries : List UTXO) (nn : Int)
    (h : balance < zakatNisab) :
    zakatStep wid last now balance entries nn = (none, last) ∧
    zakatStep "W" (some 3) 9999999 400 [] 7 = (none, some 3) := by
  constructor
  · unfold zakatStep
    by_cases h1 : wid = "ZAKAT_POOL" ∨ wid = "COINBASE"
    · rw [if_pos h1]
    · rw [if_neg h1]
      cases hbm : (match last with
          | some t => decide (now - t < zakatIntervalSecs)
          | none => false) with
      | true => rw [if_pos rfl]
      | false =>
        rw [if_neg Bool.false_ne_true, if_pos h]
  · decide

/-- Witness for C9 at the concrete exempt scenario. -/
theorem zakat_below_threshold_skips_witness :
    (400 : Nat) < zakatNisab ∧
    zakatStep "W" (some 3) 9999999 400 [] 7 = (none, some 3) :=
  ⟨by decide,
   (zakat_below_threshold_skips "W" (some 3) 9999999 400 [] 7 (by decide)).1⟩

/-! ## C10: the faucet mints value directly into the UTXO set -/

/-- Storing at a key that is absent appends the entry. -/
theorem assocSet_missing : ∀ (m : List (String × UTXO)) (k : String) (v : UTXO),
    assocGet m k = none → assocSet m k v = m ++ [(k, v)]
  | [], _, _, _ => rfl
  | (k2, v2) :: rest, k, v, h => by
    by_cases hk : k2 = k
    · rw [assocGet, if_pos hk] at h
      cases h
    · rw [assocGet, if_neg hk] at h
      rw [assocSet, if_neg hk, assocSet_missing rest k v h]
      rfl

/-- Appending a fresh entry leaves every other key's lookup unchanged. -/
theorem assocGet_append_ne : ∀ (m : List (String × UTXO)) (k : String) (v : UTXO)
    (k2 : String), k2 ≠ k → assocGet (m ++ [(k, v)]) k2 = assocGet m k2
  | [], k, v, k2, hne => by
    simp only [List.nil_append, assocGet]
    rw [if_neg (fun h => hne h.symm)]
  | (k3, v3) :: rest, k, v, k2, hne => by
    simp only [List.cons_append, assocGet]
    by_cases hk : k3 = k2
    · rw [if_pos hk, if_pos hk]
    · rw [if_neg hk, if_neg hk]
      exact assocGet_append_ne rest k v k2 hne

/-- Appending a fresh entry makes its key's lookup hit it. -/
theorem assocGet_append_self : ∀ (m : List (String × UTXO)) (k : String) (v : UTXO),
    assocGet m k = none → assocGet (m ++ [(k, v)]) k = some v
  | [], k, v, _ => by
    rw [List.nil_append, assocGet, if_pos rfl]
  | (k3, v3) :: rest, k, v, h => by
    by_cases hk : k3 = k
    · rw [assocGet, if_pos hk] at h
      cases h
    · rw [assocGet, if_neg hk] at h
      rw [List.cons_append, assocGet, if_neg hk]
      exact assocGet_append_self rest k v h

/-- C10: `CreateFaucetUTXO` inserts a brand-new unspent UTXO of the fixed
faucet amount 1000 owned by the wallet straight into the UTXO set — no
transaction, no block, no inputs consumed: the chain and the pending pool
are untouched, every other UTXO entry is untouched, every other wallet's
balance is untouched, and the wallet's balance increases by exactly 1000. -/
theorem createFaucetUTXO_spec (bc : Chainstate) (wid : String) (ts : Int)
    (hfresh : assocGet bc.utxos ("faucet-" ++ wid ++ "-" ++ toString ts ++ ":0") = none)
    (hroom : getBalance bc wid + faucetAmount < U64) :
    (createFaucetUTXO bc wid ts).1.owner = wid ∧
    (createFaucetUTXO bc wid ts).1.amount = faucetAmount ∧
    (createFaucetUTXO bc wid ts).1.spent = false ∧
    (createFaucetUTXO bc wid ts).2.chain = bc.chain ∧
    (createFaucetUTXO bc wid ts).2.pending = bc.pending ∧
    getBalance (createFaucetUTXO bc wid ts).2 wid = getBalance bc wid + faucetAmount ∧
    (∀ w2, w2 ≠ wid → getBalance (createFaucetUTXO bc wid ts).2 w2 = getBalance bc w2) ∧
    assocGet (createFaucetUTXO bc wid ts).2.utxos
        ("faucet-" ++ wid ++ "-" ++ toString ts ++ ":0") =
      some (createFaucetUTXO bc wid ts).1 ∧
    (∀ k, k ≠ "faucet-" ++ wid ++ "-" ++ toString ts ++ ":0" →
      assocGet (createFaucetUTXO bc wid ts).2.utxos k = assocGet bc.utxos k) := by
  have hu : (createFaucetUTXO bc wid ts).2.utxos =
      bc.utxos ++ [("faucet-" ++ wid ++ "-" ++ toString ts ++ ":0",
                    (createFaucetUTXO bc wid ts).1)] := by
    show assocSet bc.utxos _ _ = _
    exact assocSet_missing bc.utxos _ _ hfresh
  have hbal : ∀ w2, getBalance (createFaucetUTXO bc wid ts).2 w2 =
      (if wid = w2 then (getBalance bc w2 + faucetAmount) % U64 else getBalance bc w2) := by
    intro w2
    show List.foldl _ 0 (createFaucetUTXO bc wid ts).2.utxos = _
    rw [hu, List.foldl_append]
    by_cases hw : wid = w2
    · rw [if_pos hw]
      show (if (createFaucetUTXO bc wid ts).1.owner = w2 ∧
            (createFaucetUTXO bc wid ts).1.spent = false then _ else _) = _
      rw [if_pos ⟨hw, rfl⟩]
      rfl
    · rw [if_neg hw]
      show (if (createFaucetUTXO bc wid ts).1.owner = w2 ∧
            (createFaucetUTXO bc wid ts).1.spent = false then _ else _) = _
      rw [if_neg (fun hcon => hw hcon.1)]
      rfl
  refine ⟨rfl, rfl, rfl, rfl, rfl, ?_, ?_, ?_, ?_⟩
  · rw [hbal wid, if_pos rfl]
    exact Nat.mod_eq_of_lt hroom
  · intro w2 hw2
    rw [hbal w2, if_neg (fun h => hw2 h.symm)]
  · rw [hu]
    exact assocGet_append_self bc.utxos _ _ hfresh
  · intro k hk
    rw [hu]
    exact assocGet_append_ne bc.utxos _ _ k hk

/-- Witness for C10: the faucet on an empty UTXO set. -/
theorem createFaucetUTXO_spec_witness :
    assocGet bcEmptyPool.utxos ("faucet-" ++ "W" ++ "-" ++ toString (5 : Int) ++ ":0") =
      none ∧
    getBalance bcEmptyPool "W" + faucetAmount < U64 ∧
    getBalance (createFaucetUTXO bcEmptyPool "W" 5).2 "W" =
      getBalance bcEmptyPool "W" + faucetAmount ∧
    (createFaucetUTXO bcEmptyPool "W" 5).2.chain = bcEmptyPool.chain ∧
    (createFaucetUTXO bcEmptyPool "W" 5).2.pending = bcEmptyPool.pending :=
  ⟨rfl, by decide,
   (createFaucetUTXO_spec bcEmptyPool "W" 5 rfl (by decide)).2.2.2.2.2.1,
   (createFaucetUTXO_spec bcEmptyPool "W" 5 rfl (by decide)).2.2.2.1,
   (createFaucetUTXO_spec bcEmptyPool "W" 5 rfl (by decide)).2.2.2.2.1⟩

end CryptoWallet
